import Mathlib

/-!
Verification of the quoting / order-book / simulated-order-lifecycle engine
of the Polymarket paper-trading bot.

The definitions below are a shallow embedding of the JavaScript source:
  * `OrderBook`, `ArbitrageAnalyzer` — src/classes/ArbitrageAnalyzer.js
  * `MarketMaker`                    — src/classes/ActivityStream.js (MarketMaker)
  * `VirtualOrderManager` state      — src/unnamed/part_001

JavaScript `Map` objects are embedded as association lists with the same
first-occurrence update/delete/lookup semantics; decimal numbers are
embedded as exact rationals; `undefined`-able fields are `Option`s; the
timer queue of the runtime is made explicit as a list of pending timers
with their payloads.
-/

namespace PolyBot

/-- Feed side of a price-change delta (`"BUY"` updates bids, `"SELL"` asks). -/
inductive Side where
  | BUY
  | SELL
  deriving DecidableEq

/-- Token role within the binary market (`"yes"` / `"no"` strings in source). -/
inductive Role where
  | yes
  | no
  deriving DecidableEq

/-- Order direction (`"BID"` / `"ASK"` strings in source). -/
inductive Direction where
  | BID
  | ASK
  deriving DecidableEq

/-! ## JS `Map` embedding: association lists (first-occurrence semantics) -/

/-- `Map.set(p, s)`: replace the first entry with key `p`, append if absent. -/
def mapSet : List (ℚ × ℚ) → ℚ → ℚ → List (ℚ × ℚ)
  | [], p, s => [(p, s)]
  | (q, t) :: rest, p, s =>
      if q = p then (p, s) :: rest else (q, t) :: mapSet rest p s

/-- `Map.delete(p)`: remove the first entry with key `p`. -/
def mapDelete : List (ℚ × ℚ) → ℚ → List (ℚ × ℚ)
  | [], _ => []
  | (q, t) :: rest, p =>
      if q = p then rest else (q, t) :: mapDelete rest p

/-- `Map.get(p)`: value of the first entry with key `p`. -/
def mapGet : List (ℚ × ℚ) → ℚ → Option ℚ
  | [], _ => none
  | (q, t) :: rest, p => if q = p then some t else mapGet rest p

/-- `Math.max(...keys)` over the keys of a side mapping. -/
def keyMax : List (ℚ × ℚ) → Option ℚ
  | [] => none
  | (q, _) :: rest =>
      match keyMax rest with
      | none => some q
      | some m => some (max q m)

/-- `Math.min(...keys)` over the keys of a side mapping. -/
def keyMin : List (ℚ × ℚ) → Option ℚ
  | [] => none
  | (q, _) :: rest =>
      match keyMin rest with
      | none => some q
      | some m => some (min q m)

/-! ## OrderBook (src/classes/ArbitrageAnalyzer.js, lines 17–47) -/

structure OrderBook where
  tokenId : String
  bids : List (ℚ × ℚ)
  asks : List (ℚ × ℚ)
  deriving DecidableEq

/-- `OrderBook.update`: `side === "BUY"` selects the bid map, otherwise the
ask map; size 0 deletes the price level, any other size upserts it. -/
def OrderBook.update (b : OrderBook) (price : ℚ) (side : Side) (size : ℚ) :
    OrderBook :=
  match side with
  | Side.BUY =>
      if size = 0 then { b with bids := mapDelete b.bids price }
      else { b with bids := mapSet b.bids price size }
  | Side.SELL =>
      if size = 0 then { b with asks := mapDelete b.asks price }
      else { b with asks := mapSet b.asks price size }

/-- `OrderBook.getBestBid`: `null` on an empty bid map, else the max key. -/
def OrderBook.getBestBid (b : OrderBook) : Option ℚ :=
  keyMax b.bids

/-- `OrderBook.getBestAsk`: `null` on an empty ask map, else the min key. -/
def OrderBook.getBestAsk (b : OrderBook) : Option ℚ :=
  keyMin b.asks

/-- The side mapping selected by a delta side, as in `OrderBook.update`. -/
def OrderBook.sideMap (b : OrderBook) : Side → List (ℚ × ℚ)
  | Side.BUY => b.bids
  | Side.SELL => b.asks

/-! ### Association-list lemmas -/

theorem mapGet_eq_none_of_not_mem (m : List (ℚ × ℚ)) (p : ℚ)
    (h : p ∉ m.map Prod.fst) : mapGet m p = none := by
  induction m with
  | nil => rfl
  | cons e rest ih =>
      obtain ⟨q, t⟩ := e
      simp only [List.map_cons, List.mem_cons] at h
      push_neg at h
      simp only [mapGet, if_neg (Ne.symm h.1)]
      exact ih h.2

theorem mapGet_mapSet_self (m : List (ℚ × ℚ)) (p s : ℚ) :
    mapGet (mapSet m p s) p = some s := by
  induction m with
  | nil => simp [mapSet, mapGet]
  | cons e rest ih =>
      obtain ⟨q, t⟩ := e
      by_cases h : q = p
      · simp [mapSet, h, mapGet]
      · simp [mapSet, h, mapGet, ih]

theorem mapGet_mapSet_other (m : List (ℚ × ℚ)) (p s p' : ℚ) (h : p' ≠ p) :
    mapGet (mapSet m p s) p' = mapGet m p' := by
  induction m with
  | nil => simp [mapSet, mapGet, Ne.symm h]
  | cons e rest ih =>
      obtain ⟨q, t⟩ := e
      by_cases hq : q = p
      · subst hq
        simp [mapSet, mapGet, if_neg (Ne.symm (by simpa using h))]
      · simp only [mapSet, if_neg hq, mapGet]
        by_cases hq' : q = p'
        · simp [hq']
        · simp [hq', ih]

theorem mapGet_mapDelete_self (m : List (ℚ × ℚ)) (p : ℚ)
    (h : (m.map Prod.fst).Nodup) : mapGet (mapDelete m p) p = none := by
  induction m with
  | nil => rfl
  | cons e rest ih =>
      obtain ⟨q, t⟩ := e
      simp only [List.map_cons, List.nodup_cons] at h
      by_cases hq : q = p
      · subst hq
        simp only [mapDelete, if_pos rfl]
        exact mapGet_eq_none_of_not_mem rest q h.1
      · simp only [mapDelete, if_neg hq, mapGet, if_neg hq]
        exact ih h.2

theorem mapGet_mapDelete_other (m : List (ℚ × ℚ)) (p p' : ℚ) (h : p' ≠ p) :
    mapGet (mapDelete m p) p' = mapGet m p' := by
  induction m with
  | nil => rfl
  | cons e rest ih =>
      obtain ⟨q, t⟩ := e
      by_cases hq : q = p
      · subst hq
        simp [mapDelete, mapGet, if_neg (Ne.symm (by simpa using h))]
      · simp only [mapDelete, if_neg hq, mapGet]
        by_cases hq' : q = p'
        · simp [hq']
        · simp [hq', ih]

theorem keyMax_eq_none_iff (m : List (ℚ × ℚ)) : keyMax m = none ↔ m = [] := by
  cases m with
  | nil => simp [keyMax]
  | cons e rest =>
      obtain ⟨q, t⟩ := e
      constructor
      · intro h
        simp only [keyMax] at h
        cases hk : keyMax rest with
        | none => rw [hk] at h; exact absurd h (by simp)
        | some v => rw [hk] at h; exact absurd h (by simp)
      · intro h; exact absurd h (by simp)

theorem keyMax_spec (m : List (ℚ × ℚ)) (q : ℚ) (h : keyMax m = some q) :
    q ∈ m.map Prod.fst ∧ ∀ k ∈ m.map Prod.fst, k ≤ q := by
  induction m generalizing q with
  | nil => exact absurd h (by simp [keyMax])
  | cons e rest ih =>
      obtain ⟨a, b⟩ := e
      simp only [keyMax] at h
      cases hk : keyMax rest with
      | none =>
          rw [hk] at h
          have hrest : rest = [] := (keyMax_eq_none_iff rest).mp hk
          subst hrest
          simp only [Option.some.injEq] at h
          subst h
          simp
      | some v =>
          rw [hk] at h
          simp only [Option.some.injEq] at h
          obtain ⟨hv1, hv2⟩ := ih v hk
          constructor
          · rcases max_choice a v with hm | hm
            · rw [← h, hm]; simp
            · rw [← h, hm]; simp [hv1]
          · intro k hk'
            simp only [List.map_cons, List.mem_cons] at hk'
            rcases hk' with hk' | hk'
            · rw [hk', ← h]; exact le_max_left a v
            · exact le_trans (hv2 k hk') (le_of_eq (by rw [← h]) |>.trans' (le_max_right a v))

theorem keyMin_eq_none_iff (m : List (ℚ × ℚ)) : keyMin m = none ↔ m = [] := by
  cases m with
  | nil => simp [keyMin]
  | cons e rest =>
      obtain ⟨q, t⟩ := e
      constructor
      · intro h
        simp only [keyMin] at h
        cases hk : keyMin rest with
        | none => rw [hk] at h; exact absurd h (by simp)
        | some v => rw [hk] at h; exact absurd h (by simp)
      · intro h; exact absurd h (by simp)

theorem keyMin_spec (m : List (ℚ × ℚ)) (q : ℚ) (h : keyMin m = some q) :
    q ∈ m.map Prod.fst ∧ ∀ k ∈ m.map Prod.fst, q ≤ k := by
  induction m generalizing q with
  | nil => exact absurd h (by simp [keyMin])
  | cons e rest ih =>
      obtain ⟨a, b⟩ := e
      simp only [keyMin] at h
      cases hk : keyMin rest with
      | none =>
          rw [hk] at h
          have hrest : rest = [] := (keyMin_eq_none_iff rest).mp hk
          subst hrest
          simp only [Option.some.injEq] at h
          subst h
          simp
      | some v =>
          rw [hk] at h
          simp only [Option.some.injEq] at h
          obtain ⟨hv1, hv2⟩ := ih v hk
          constructor
          · rcases min_choice a v with hm | hm
            · rw [← h, hm]; simp
            · rw [← h, hm]; simp [hv1]
          · intro k hk'
            simp only [List.map_cons, List.mem_cons] at hk'
            rcases hk' with hk' | hk'
            · rw [hk', ← h]; exact min_le_left a v
            · exact le_trans ((le_of_eq (by rw [← h])).trans (min_le_right a v)) (hv2 k hk')

/-- C4: `apply(price, side, 0)` removes the price key and `apply` with a
nonzero size upserts it (other keys untouched); `bestBid`/`bestAsk` return
the max/min key of their side and are undefined exactly on an empty side;
and on a fresh book, `apply(0.55, BID, 10)` then `apply(0.55, BID, 0)`
leaves `bestBid()` undefined. -/
theorem orderbook_apply_spec (b : OrderBook) (p s : ℚ) (sd : Side)
    (hnd : ((b.sideMap sd).map Prod.fst).Nodup) :
    (mapGet ((b.update p sd 0).sideMap sd) p = none
      ∧ ∀ p', p' ≠ p →
          mapGet ((b.update p sd 0).sideMap sd) p' = mapGet (b.sideMap sd) p')
    ∧ (s ≠ 0 →
        mapGet ((b.update p sd s).sideMap sd) p = some s
          ∧ ∀ p', p' ≠ p →
              mapGet ((b.update p sd s).sideMap sd) p' = mapGet (b.sideMap sd) p')
    ∧ (b.getBestBid = none ↔ b.bids = [])
    ∧ (b.getBestAsk = none ↔ b.asks = [])
    ∧ (∀ q, b.getBestBid = some q →
        q ∈ b.bids.map Prod.fst ∧ ∀ k ∈ b.bids.map Prod.fst, k ≤ q)
    ∧ (∀ q, b.getBestAsk = some q →
        q ∈ b.asks.map Prod.fst ∧ ∀ k ∈ b.asks.map Prod.fst, q ≤ k)
    ∧ (((OrderBook.mk "t" [] []).update (55/100) Side.BUY 10).update (55/100)
        Side.BUY 0).getBestBid = none := by
  refine ⟨⟨?_, ?_⟩, ?_, ?_, ?_, ?_, ?_, ?_⟩
  · cases sd <;>
      simpa [OrderBook.update, OrderBook.sideMap] using
        mapGet_mapDelete_self _ p (by simpa [OrderBook.sideMap] using hnd)
  · intro p' hp'
    cases sd <;>
      simpa [OrderBook.update, OrderBook.sideMap] using
        mapGet_mapDelete_other _ p p' hp'
  · intro hs
    refine ⟨?_, ?_⟩
    · cases sd <;>
        simpa [OrderBook.update, OrderBook.sideMap, if_neg hs] using
          mapGet_mapSet_self _ p s
    · intro p' hp'
      cases sd <;>
        simpa [OrderBook.update, OrderBook.sideMap, if_neg hs] using
          mapGet_mapSet_other _ p s p' hp'
  · exact keyMax_eq_none_iff b.bids
  · exact keyMin_eq_none_iff b.asks
  · exact fun q hq => keyMax_spec b.bids q hq
  · exact fun q hq => keyMin_spec b.asks q hq
  · norm_num [OrderBook.update, OrderBook.getBestBid, mapSet, mapDelete, keyMax]

/-- Witness for `orderbook_apply_spec` at a concrete one-level book. -/
theorem orderbook_apply_spec_witness :
    mapGet (((OrderBook.mk "t" [(1/2, 5)] []).update (3/5) Side.BUY 7).sideMap
      Side.BUY) (3/5) = some 7 := by
  have h := orderbook_apply_spec (OrderBook.mk "t" [(1/2, 5)] []) (3/5) 7
    Side.BUY (by decide)
  exact (h.2.1 (by norm_num)).1

/-! ## ArbitrageAnalyzer (src/classes/ArbitrageAnalyzer.js, lines 49–178) -/

/-- One element of a `market:price_change` batch. `best_ask` and `timestamp`
are optional fields of the wire payload. -/
structure PriceChange where
  asset_id : String
  price : ℚ
  side : Side
  size : ℚ
  best_ask : Option ℚ
  timestamp : Option ℕ
  deriving DecidableEq

inductive ArbKind where
  | BUY_BOTH
  | SELL_BOTH
  deriving DecidableEq

/-- Payload of an `arbitrage:detected` emission. -/
structure ArbSignal where
  type : ArbKind
  yesPrice : ℚ
  noPrice : ℚ
  combined : ℚ
  profit : ℚ
  timestamp : ℕ
  deriving DecidableEq

/-- State of `ArbitrageAnalyzer`: the token ids of the active market and the
`tokenId -> OrderBook` map. -/
structure Analyzer where
  yesTokenId : Option String
  noTokenId : Option String
  books : List (String × OrderBook)
  deriving DecidableEq

def lookupBook : List (String × OrderBook) → String → Option OrderBook
  | [], _ => none
  | (t, b) :: rest, tid => if t = tid then some b else lookupBook rest tid

/-- Apply `f` to the book stored under key `tid` (in-place mutation of the
`books` object entry in the source). -/
def updBooks : List (String × OrderBook) → String → (OrderBook → OrderBook) →
    List (String × OrderBook)
  | [], _, _ => []
  | (t, b) :: rest, tid, f =>
      if t = tid then (t, f b) :: updBooks rest tid f
      else (t, b) :: updBooks rest tid f

/-- One delta of the loop in `_onPriceChange`: `const book =
this.books[change.asset_id]; if (!book) continue; book.update(...)`. -/
def applyChange (books : List (String × OrderBook)) (c : PriceChange) :
    List (String × OrderBook) :=
  match lookupBook books c.asset_id with
  | none => books
  | some _ =>
      updBooks books c.asset_id fun b => b.update c.price c.side c.size

/-- The BUY-arbitrage emission of `_checkArbitrage`. -/
def buySignals (yesBook noBook : OrderBook) (ts : ℕ) : List ArbSignal :=
  match yesBook.getBestAsk, noBook.getBestAsk with
  | some yesAsk, some noAsk =>
      if yesAsk + noAsk < 1 then
        [⟨ArbKind.BUY_BOTH, yesAsk, noAsk, yesAsk + noAsk,
          1 - (yesAsk + noAsk), ts⟩]
      else []
  | _, _ => []

/-- The SELL-arbitrage emission of `_checkArbitrage`. -/
def sellSignals (yesBook noBook : OrderBook) (ts : ℕ) : List ArbSignal :=
  match yesBook.getBestBid, noBook.getBestBid with
  | some yesBid, some noBid =>
      if yesBid + noBid > 1 then
        [⟨ArbKind.SELL_BOTH, yesBid, noBid, yesBid + noBid,
          (yesBid + noBid) - 1, ts⟩]
      else []
  | _, _ => []

/-- `_checkArbitrage(timestamp)`: early return unless both token ids are set
and both books exist; otherwise emit the BUY then the SELL signal. -/
def Analyzer.checkArbitrage (a : Analyzer) (ts : ℕ) : List ArbSignal :=
  match a.yesTokenId, a.noTokenId with
  | some y, some n =>
      match lookupBook a.books y, lookupBook a.books n with
      | some yesBook, some noBook =>
          buySignals yesBook noBook ts ++ sellSignals yesBook noBook ts
      | _, _ => []
  | _, _ => []

/-- `changes[0]?.timestamp ?? Date.now()`. -/
def batchTimestamp (changes : List PriceChange) (now : ℕ) : ℕ :=
  match changes with
  | [] => now
  | c :: _ => c.timestamp.getD now

/-- `_onPriceChange(changes)`: apply the whole batch to the books, then run
the arbitrage check once on the resulting state. -/
def Analyzer.onPriceChange (a : Analyzer) (changes : List PriceChange)
    (now : ℕ) : Analyzer × List ArbSignal :=
  let a1 : Analyzer := { a with books := changes.foldl applyChange a.books }
  (a1, a1.checkArbitrage (batchTimestamp changes now))

/-! ### Analyzer lemmas -/

theorem lookupBook_updBooks_self (bks : List (String × OrderBook))
    (tid : String) (f : OrderBook → OrderBook) :
    lookupBook (updBooks bks tid f) tid = (lookupBook bks tid).map f := by
  induction bks with
  | nil => simp [updBooks, lookupBook]
  | cons e rest ih =>
      obtain ⟨t, b⟩ := e
      by_cases ht : t = tid
      · subst ht
        simp [updBooks, lookupBook]
      · simp [updBooks, lookupBook, ht, ih]

theorem lookupBook_updBooks_other (bks : List (String × OrderBook))
    (tid t' : String) (f : OrderBook → OrderBook) (h : t' ≠ tid) :
    lookupBook (updBooks bks tid f) t' = lookupBook bks t' := by
  induction bks with
  | nil => simp [updBooks]
  | cons e rest ih =>
      obtain ⟨t, b⟩ := e
      by_cases ht : t = tid
      · subst ht
        simp [updBooks, lookupBook, Ne.symm h, ih]
      · by_cases ht' : t = t'
        · subst ht'
          simp [updBooks, lookupBook, ht]
        · simp [updBooks, lookupBook, ht, ht', ih]

theorem applyChange_unknown (bks : List (String × OrderBook)) (c : PriceChange)
    (h : lookupBook bks c.asset_id = none) : applyChange bks c = bks := by
  simp [applyChange, h]

theorem applyChange_self (bks : List (String × OrderBook)) (c : PriceChange)
    (bk : OrderBook) (h : lookupBook bks c.asset_id = some bk) :
    lookupBook (applyChange bks c) c.asset_id
      = some (bk.update c.price c.side c.size) := by
  simp [applyChange, h, lookupBook_updBooks_self]

theorem applyChange_other (bks : List (String × OrderBook)) (c : PriceChange)
    (t' : String) (h : t' ≠ c.asset_id) :
    lookupBook (applyChange bks c) t' = lookupBook bks t' := by
  unfold applyChange
  cases hl : lookupBook bks c.asset_id with
  | none => rfl
  | some bk => exact lookupBook_updBooks_other bks c.asset_id t' _ h

theorem buySignals_spec (yb nb : OrderBook) (ts : ℕ) :
    (∀ s ∈ buySignals yb nb ts,
      ∃ ya na, yb.getBestAsk = some ya ∧ nb.getBestAsk = some na
        ∧ ya + na < 1
        ∧ s = ⟨ArbKind.BUY_BOTH, ya, na, ya + na, 1 - (ya + na), ts⟩)
    ∧ ((∃ s, s ∈ buySignals yb nb ts)
        ↔ ∃ ya na, yb.getBestAsk = some ya ∧ nb.getBestAsk = some na
            ∧ ya + na < 1)
    ∧ (buySignals yb nb ts).length ≤ 1 := by
  cases hya : yb.getBestAsk with
  | none => simp [buySignals, hya]
  | some ya =>
      cases hna : nb.getBestAsk with
      | none => simp [buySignals, hya, hna]
      | some na =>
          by_cases hlt : ya + na < 1
          · simp [buySignals, hya, hna, hlt]
          · simp [buySignals, hya, hna, hlt]

theorem sellSignals_spec (yb nb : OrderBook) (ts : ℕ) :
    (∀ s ∈ sellSignals yb nb ts,
      ∃ yBid nBid, yb.getBestBid = some yBid ∧ nb.getBestBid = some nBid
        ∧ yBid + nBid > 1
        ∧ s = ⟨ArbKind.SELL_BOTH, yBid, nBid, yBid + nBid,
            (yBid + nBid) - 1, ts⟩)
    ∧ ((∃ s, s ∈ sellSignals yb nb ts)
        ↔ ∃ yBid nBid, yb.getBestBid = some yBid ∧ nb.getBestBid = some nBid
            ∧ yBid + nBid > 1)
    ∧ (sellSignals yb nb ts).length ≤ 1 := by
  cases hyb : yb.getBestBid with
  | none => simp [sellSignals, hyb]
  | some yBid =>
      cases hnb : nb.getBestBid with
      | none => simp [sellSignals, hyb, hnb]
      | some nBid =>
          by_cases hlt : yBid + nBid > 1
          · simp [sellSignals, hyb, hnb, hlt]
          · simp [sellSignals, hyb, hnb, hlt]

/-- C1: on a price-change batch, deltas for unknown asset ids are dropped,
deltas for tracked assets update exactly their book, arbitrage is evaluated
once on the post-batch state with the batch's timestamp (or `now` if
absent), at most one signal of each kind is emitted, and BUY_BOTH /
SELL_BOTH signals are emitted iff both best asks / bids exist with
combined price < 1 / > 1, with the stated profits. -/
theorem arb_batch_spec (a : Analyzer) (changes : List PriceChange) (now : ℕ)
    (y n : String) (yb nb : OrderBook)
    (hy : a.yesTokenId = some y) (hn : a.noTokenId = some n)
    (hyb : lookupBook (changes.foldl applyChange a.books) y = some yb)
    (hnb : lookupBook (changes.foldl applyChange a.books) n = some nb) :
    (∀ bks c, lookupBook bks c.asset_id = none → applyChange bks c = bks)
    ∧ (∀ bks c bk, lookupBook bks c.asset_id = some bk →
        lookupBook (applyChange bks c) c.asset_id
          = some (bk.update c.price c.side c.size))
    ∧ (∀ bks c t', t' ≠ c.asset_id →
        lookupBook (applyChange bks c) t' = lookupBook bks t')
    ∧ (a.onPriceChange changes now).1.books = changes.foldl applyChange a.books
    ∧ (a.onPriceChange changes now).2
        = ((a.onPriceChange changes now).1).checkArbitrage
            (batchTimestamp changes now)
    ∧ ((a.onPriceChange changes now).2.countP
          (fun s => decide (s.type = ArbKind.BUY_BOTH)) ≤ 1
        ∧ (a.onPriceChange changes now).2.countP
            (fun s => decide (s.type = ArbKind.SELL_BOTH)) ≤ 1)
    ∧ ((∃ s ∈ (a.onPriceChange changes now).2, s.type = ArbKind.BUY_BOTH)
        ↔ ∃ ya na, yb.getBestAsk = some ya ∧ nb.getBestAsk = some na
            ∧ ya + na < 1)
    ∧ (∀ s ∈ (a.onPriceChange changes now).2, s.type = ArbKind.BUY_BOTH →
        ∃ ya na, yb.getBestAsk = some ya ∧ nb.getBestAsk = some na
          ∧ ya + na < 1 ∧ s.yesPrice = ya ∧ s.noPrice = na
          ∧ s.combined = ya + na ∧ s.profit = 1 - (ya + na)
          ∧ s.timestamp = batchTimestamp changes now)
    ∧ ((∃ s ∈ (a.onPriceChange changes now).2, s.type = ArbKind.SELL_BOTH)
        ↔ ∃ yBid nBid, yb.getBestBid = some yBid ∧ nb.getBestBid = some nBid
            ∧ yBid + nBid > 1)
    ∧ (∀ s ∈ (a.onPriceChange changes now).2, s.type = ArbKind.SELL_BOTH →
        ∃ yBid nBid, yb.getBestBid = some yBid ∧ nb.getBestBid = some nBid
          ∧ yBid + nBid > 1 ∧ s.yesPrice = yBid ∧ s.noPrice = nBid
          ∧ s.combined = yBid + nBid ∧ s.profit = (yBid + nBid) - 1
          ∧ s.timestamp = batchTimestamp changes now) := by
  have hpost : (a.onPriceChange changes now).1
      = ⟨some y, some n, changes.foldl applyChange a.books⟩ := by
    simp [Analyzer.onPriceChange, hy, hn]
  have hsig : (a.onPriceChange changes now).2
      = buySignals yb nb (batchTimestamp changes now)
        ++ sellSignals yb nb (batchTimestamp changes now) := by
    have hrfl : (a.onPriceChange changes now).2
        = ((a.onPriceChange changes now).1).checkArbitrage
            (batchTimestamp changes now) := rfl
    rw [hrfl, hpost]
    simp [Analyzer.checkArbitrage, hyb, hnb]
  obtain ⟨hbmem, hbiff, hblen⟩ :=
    buySignals_spec yb nb (batchTimestamp changes now)
  obtain ⟨hsmem, hsiff, hslen⟩ :=
    sellSignals_spec yb nb (batchTimestamp changes now)
  refine ⟨?_, ?_, ?_, rfl, rfl, ⟨?_, ?_⟩, ?_, ?_, ?_, ?_⟩
  · exact applyChange_unknown
  · exact applyChange_self
  · exact fun bks c t' h => applyChange_other bks c t' h
  · rw [hsig, List.countP_append]
    have h1 : (buySignals yb nb (batchTimestamp changes now)).countP
        (fun s => decide (s.type = ArbKind.BUY_BOTH)) ≤ 1 :=
      le_trans (List.countP_le_length _) hblen
    have h2' : (sellSignals yb nb (batchTimestamp changes now)).countP
        (fun s => decide (s.type = ArbKind.BUY_BOTH)) = 0 := by
      rw [List.countP_eq_zero]
      intro s hs
      obtain ⟨yBid, nBid, _, _, _, hseq⟩ := hsmem s hs
      subst hseq
      simp
    omega
  · rw [hsig, List.countP_append]
    have h1 : (sellSignals yb nb (batchTimestamp changes now)).countP
        (fun s => decide (s.type = ArbKind.SELL_BOTH)) ≤ 1 :=
      le_trans (List.countP_le_length _) hslen
    have h2' : (buySignals yb nb (batchTimestamp changes now)).countP
        (fun s => decide (s.type = ArbKind.SELL_BOTH)) = 0 := by
      rw [List.countP_eq_zero]
      intro s hs
      obtain ⟨ya, na, _, _, _, hseq⟩ := hbmem s hs
      subst hseq
      simp
    omega
  · rw [hsig]
    constructor
    · rintro ⟨s, hs, hty⟩
      rcases List.mem_append.mp hs with hs' | hs'
      · obtain ⟨ya, na, h1, h2, h3, _⟩ := hbmem s hs'
        exact ⟨ya, na, h1, h2, h3⟩
      · obtain ⟨yBid, nBid, _, _, _, hseq⟩ := hsmem s hs'
        subst hseq
        exact absurd hty (by simp)
    · rintro ⟨ya, na, h1, h2, h3⟩
      obtain ⟨s, hs⟩ := hbiff.mpr ⟨ya, na, h1, h2, h3⟩
      refine ⟨s, List.mem_append_left _ hs, ?_⟩
      obtain ⟨_, _, _, _, _, hseq⟩ := hbmem s hs
      subst hseq
      rfl
  · rw [hsig]
    intro s hs hty
    rcases List.mem_append.mp hs with hs' | hs'
    · obtain ⟨ya, na, h1, h2, h3, hseq⟩ := hbmem s hs'
      subst hseq
      exact ⟨ya, na, h1, h2, h3, rfl, rfl, rfl, rfl, rfl⟩
    · obtain ⟨yBid, nBid, _, _, _, hseq⟩ := hsmem s hs'
      subst hseq
      exact absurd hty (by simp)
  · rw [hsig]
    constructor
    · rintro ⟨s, hs, hty⟩
      rcases List.mem_append.mp hs with hs' | hs'
      · obtain ⟨ya, na, _, _, _, hseq⟩ := hbmem s hs'
        subst hseq
        exact absurd hty (by simp)
      · obtain ⟨yBid, nBid, h1, h2, h3, _⟩ := hsmem s hs'
        exact ⟨yBid, nBid, h1, h2, h3⟩
    · rintro ⟨yBid, nBid, h1, h2, h3⟩
      obtain ⟨s, hs⟩ := hsiff.mpr ⟨yBid, nBid, h1, h2, h3⟩
      refine ⟨s, List.mem_append_right _ hs, ?_⟩
      obtain ⟨_, _, _, _, _, hseq⟩ := hsmem s hs
      subst hseq
      rfl
  · rw [hsig]
    intro s hs hty
    rcases List.mem_append.mp hs with hs' | hs'
    · obtain ⟨ya, na, _, _, _, hseq⟩ := hbmem s hs'
      subst hseq
      exact absurd hty (by simp)
    · obtain ⟨yBid, nBid, h1, h2, h3, hseq⟩ := hsmem s hs'
      subst hseq
      exact ⟨yBid, nBid, h1, h2, h3, rfl, rfl, rfl, rfl, rfl⟩

/-- Concrete analyzer tracking tokens "Y" and "N" with empty books. -/
def analyzerW : Analyzer :=
  ⟨some "Y", some "N",
    [("Y", ⟨"Y", [], []⟩), ("N", ⟨"N", [], []⟩)]⟩

/-- Concrete batch: an ask for each tracked token plus an unknown-asset
delta that must be dropped. -/
def changesW : List PriceChange :=
  [⟨"Y", 48/100, Side.SELL, 5, none, some 111⟩,
   ⟨"N", 50/100, Side.SELL, 5, none, none⟩,
   ⟨"Z", 9/10, Side.SELL, 5, none, none⟩]

def ybW : OrderBook := ⟨"Y", [], [(48/100, 5)]⟩

def nbW : OrderBook := ⟨"N", [], [(50/100, 5)]⟩

/-- Witness for `arb_batch_spec` on the concrete batch above. -/
theorem arb_batch_spec_witness :
    ((Analyzer.onPriceChange analyzerW changesW 999).2.countP
        (fun s => decide (s.type = ArbKind.BUY_BOTH)) ≤ 1)
    ∧ ((∃ s ∈ (Analyzer.onPriceChange analyzerW changesW 999).2,
          s.type = ArbKind.BUY_BOTH)
        ↔ ∃ ya na, ybW.getBestAsk = some ya ∧ nbW.getBestAsk = some na
            ∧ ya + na < 1) := by
  have h := arb_batch_spec analyzerW changesW 999 "Y" "N" ybW nbW rfl rfl
    (by norm_num [analyzerW, changesW, ybW, applyChange, lookupBook, updBooks,
      OrderBook.update, mapSet])
    (by
      norm_num [analyzerW, changesW, nbW, applyChange, lookupBook, updBooks,
        OrderBook.update, mapSet]
      decide)
  exact ⟨h.2.2.2.2.2.1.1, h.2.2.2.2.2.2.1⟩

/-! ## MarketMaker (src/classes/ActivityStream.js, MarketMaker class) -/

/-- Per-role inventory record `{ qty, avg }`. -/
structure Inv where
  qty : ℚ
  avg : ℚ
  deriving DecidableEq

/-- State of `MarketMaker`: active token ids, inventory ledger and the two
risk constants (`riskFactor = 0.05`, `spreadMargin = 0.01` at construction). -/
structure MarketMaker where
  yesTokenId : Option String
  noTokenId : Option String
  invYes : Inv
  invNo : Inv
  riskFactor : ℚ
  spreadMargin : ℚ
  deriving DecidableEq

/-- `this.inventory[assetSide]`. -/
def MarketMaker.inventory (m : MarketMaker) : Role → Inv
  | Role.yes => m.invYes
  | Role.no => m.invNo

def MarketMaker.setInventory (m : MarketMaker) : Role → Inv → MarketMaker
  | Role.yes, v => { m with invYes := v }
  | Role.no, v => { m with invNo := v }

/-- `getInventoryImbalance()`: percentage imbalance, 0 when total is 0. -/
def MarketMaker.getInventoryImbalance (m : MarketMaker) : ℚ :=
  let yesQty := m.invYes.qty
  let noQty := m.invNo.qty
  let totalQty := yesQty + noQty
  if totalQty = 0 then 0 else ((yesQty - noQty) / totalQty) * 100

/-- `getReservationPrice(microPrice, imbalancePct, targetSide)`. -/
def MarketMaker.getReservationPrice (m : MarketMaker) (microPrice : ℚ)
    (imbalancePct : ℚ) (targetSide : Role) : ℚ :=
  let imbalanceDecimal := imbalancePct / 100
  let adjustment := imbalanceDecimal * m.riskFactor
  let adjustment := if targetSide = Role.no then -adjustment else adjustment
  microPrice - adjustment

/-- JS `Math.round`: round half toward positive infinity. -/
def jsRound (q : ℚ) : ℤ := ⌊q + 1/2⌋

/-- `getBidAskPrices(reservationPrice)`: subtract the spread margin, round
to the nearest cent, clamp into [0.01, 0.99]; only a bid is produced. -/
def MarketMaker.getBidAskPrices (m : MarketMaker) (reservationPrice : ℚ) :
    ℚ :=
  let bidPrice := reservationPrice - m.spreadMargin
  let bidPrice := (jsRound (bidPrice * 100) : ℚ) / 100
  max (1/100) (min (99/100) bidPrice)

/-- A price level of a `market:book` snapshot. -/
structure BookLevel where
  price : ℚ
  size : ℚ
  deriving DecidableEq

/-- A `market:book` snapshot event. -/
structure BookEvent where
  asset_id : String
  bids : List BookLevel
  asks : List BookLevel
  deriving DecidableEq

/-- Payload of a `marketmaker:quotes` emission. -/
structure QuoteEvent where
  assetId : String
  assetSide : Role
  type : Direction
  price : ℚ
  deriving DecidableEq

/-- `handleBookEvent(bookEvent)`: guard on active market and membership,
require a non-empty level list on both sides, take the *last* element of
each side as best level, and emit a single BID quote. -/
def MarketMaker.handleBookEvent (m : MarketMaker) (e : BookEvent) :
    Option QuoteEvent :=
  match m.yesTokenId, m.noTokenId with
  | some yesId, some noId =>
      if e.asset_id ≠ yesId ∧ e.asset_id ≠ noId then none
      else
        match e.bids.getLast?, e.asks.getLast? with
        | some bestBidLevel, some bestAskLevel =>
            let bestBidPrice := bestBidLevel.price
            let bestBidSize := bestBidLevel.size
            let bestAskPrice := bestAskLevel.price
            let bestAskSize := bestAskLevel.size
            let microPrice :=
              (bestBidPrice * bestAskSize + bestAskPrice * bestBidSize)
                / (bestBidSize + bestAskSize)
            let imbalancePct := m.getInventoryImbalance
            let side := if e.asset_id = yesId then Role.yes else Role.no
            let reservationPrice :=
              m.getReservationPrice microPrice imbalancePct side
            some ⟨e.asset_id, side, Direction.BID,
              m.getBidAskPrices reservationPrice⟩
        | _, _ => none
  | _, _ => none

/-- Payload of an `order:filled` event as consumed by `handleOrderFill`. -/
structure FillEvent where
  assetId : String
  assetSide : Role
  orderType : Direction
  price : ℚ
  size : ℚ
  deriving DecidableEq

/-- `handleOrderFill(fillEvent)`: only `orderType === "BID"` updates the
inventory of the fill's role; anything else leaves the state untouched. -/
def MarketMaker.handleOrderFill (m : MarketMaker) (f : FillEvent) :
    MarketMaker :=
  if f.orderType = Direction.BID then
    let inv := m.inventory f.assetSide
    let totalCost := inv.qty * inv.avg + f.size * f.price
    let newQty := inv.qty + f.size
    let newAvg := if newQty = 0 then 0 else totalCost / newQty
    m.setInventory f.assetSide ⟨newQty, newAvg⟩
  else m

/-! ### MarketMaker lemmas -/

/-- The code's zero-total guard agrees with the spec's both-quantities-zero
guard (junk division by zero makes the remaining case coincide). -/
theorem imbalance_code_eq_claim (m : MarketMaker) :
    m.getInventoryImbalance
      = (if m.invYes.qty = 0 ∧ m.invNo.qty = 0 then 0
         else ((m.invYes.qty - m.invNo.qty)
            / (m.invYes.qty + m.invNo.qty)) * 100) := by
  unfold MarketMaker.getInventoryImbalance
  by_cases h : m.invYes.qty + m.invNo.qty = 0
  · rw [if_pos h]
    by_cases hb : m.invYes.qty = 0 ∧ m.invNo.qty = 0
    · rw [if_pos hb]
    · rw [if_neg hb, h, div_zero, zero_mul]
  · have hb : ¬(m.invYes.qty = 0 ∧ m.invNo.qty = 0) := by
      rintro ⟨h1, h2⟩
      exact h (by rw [h1, h2, add_zero])
    rw [if_neg h, if_neg hb]

/-- C2: a book snapshot for a tracked asset with non-empty sides yields
exactly one quote whose price is
`clamp(round(reservationPrice − spreadMargin), 0.01, 0.99)`, with best
bid/ask taken from the LAST list elements, the size-weighted micro price,
the both-zero-guarded inventory imbalance, and the sign-flipped
adjustment for the NO role. -/
theorem quote_snapshot_spec (m : MarketMaker) (e : BookEvent)
    (yesId noId : String) (bb ba : BookLevel)
    (hy : m.yesTokenId = some yesId) (hn : m.noTokenId = some noId)
    (hasset : e.asset_id = yesId ∨ e.asset_id = noId)
    (hb : e.bids.getLast? = some bb) (ha : e.asks.getLast? = some ba) :
    m.handleBookEvent e
      = some ⟨e.asset_id,
          (if e.asset_id = yesId then Role.yes else Role.no),
          Direction.BID,
          max (1/100) (min (99/100)
            ((jsRound
              ((((bb.price * ba.size + ba.price * bb.size)
                    / (bb.size + ba.size))
                  - (if (if e.asset_id = yesId then Role.yes else Role.no)
                        = Role.no
                     then -(((if m.invYes.qty = 0 ∧ m.invNo.qty = 0 then 0
                              else ((m.invYes.qty - m.invNo.qty)
                                / (m.invYes.qty + m.invNo.qty)) * 100) / 100)
                            * m.riskFactor)
                     else (((if m.invYes.qty = 0 ∧ m.invNo.qty = 0 then 0
                             else ((m.invYes.qty - m.invNo.qty)
                               / (m.invYes.qty + m.invNo.qty)) * 100) / 100)
                           * m.riskFactor))
                  - m.spreadMargin) * 100) : ℚ) / 100))⟩ := by
  have hcond : ¬(e.asset_id ≠ yesId ∧ e.asset_id ≠ noId) := by
    rcases hasset with h | h
    · rintro ⟨h1, _⟩; exact h1 h
    · rintro ⟨_, h2⟩; exact h2 h
  simp only [MarketMaker.handleBookEvent, hy, hn, if_neg hcond, hb, ha,
    MarketMaker.getReservationPrice, MarketMaker.getBidAskPrices,
    imbalance_code_eq_claim]

/-- Concrete maker: zero inventory, `riskFactor = 0.05`,
`spreadMargin = 0.01`, tracking tokens "Y" and "N". -/
def makerW : MarketMaker :=
  ⟨some "Y", some "N", ⟨0, 0⟩, ⟨0, 0⟩, 5/100, 1/100⟩

/-- Concrete snapshot for the YES token: one bid level 0.40×100 and one
ask level 0.45×50. -/
def bookEventW : BookEvent :=
  ⟨"Y", [⟨40/100, 100⟩], [⟨45/100, 50⟩]⟩

/-- Witness for `quote_snapshot_spec` on the concrete snapshot. -/
theorem quote_snapshot_spec_witness :
    MarketMaker.handleBookEvent makerW bookEventW
      = some ⟨"Y", Role.yes, Direction.BID,
          max (1/100) (min (99/100)
            ((jsRound
              ((((40/100 * 50 + 45/100 * 100) / ((100:ℚ) + 50))
                  - (if (if ("Y":String) = "Y" then Role.yes else Role.no)
                        = Role.no
                     then -(((if (0:ℚ) = 0 ∧ (0:ℚ) = 0 then 0
                              else (((0:ℚ) - 0) / (0 + 0)) * 100) / 100)
                            * (5/100))
                     else (((if (0:ℚ) = 0 ∧ (0:ℚ) = 0 then 0
                             else (((0:ℚ) - 0) / (0 + 0)) * 100) / 100)
                           * (5/100)))
                  - 1/100) * 100) : ℚ) / 100))⟩ := by
  have h := quote_snapshot_spec makerW bookEventW "Y" "N" ⟨40/100, 100⟩
    ⟨45/100, 50⟩ rfl rfl (Or.inl rfl) rfl rfl
  simpa [makerW, bookEventW] using h

/-- C5: every quote the engine emits is BID-direction with a whole-cent
price inside [0.01, 0.99], for every maker state and snapshot input. -/
theorem quote_direction_bounds_invariant (m : MarketMaker) (e : BookEvent)
    (q : QuoteEvent) (h : m.handleBookEvent e = some q) :
    q.type = Direction.BID
    ∧ (∃ k : ℤ, q.price = (k : ℚ) / 100)
    ∧ 1/100 ≤ q.price ∧ q.price ≤ 99/100 := by
  have hbounds : ∀ r : ℚ,
      (∃ k : ℤ, m.getBidAskPrices r = (k : ℚ) / 100)
      ∧ 1/100 ≤ m.getBidAskPrices r ∧ m.getBidAskPrices r ≤ 99/100 := by
    intro r
    unfold MarketMaker.getBidAskPrices
    refine ⟨⟨max 1 (min 99 (jsRound ((r - m.spreadMargin) * 100))), ?_⟩,
      le_max_left _ _, ?_⟩
    · push_cast
      rw [← max_div_div_right (by norm_num : (0:ℚ) ≤ 100),
        ← min_div_div_right (by norm_num : (0:ℚ) ≤ 100)]
    · exact max_le (by norm_num) (le_trans (min_le_left _ _) (by norm_num))
  unfold MarketMaker.handleBookEvent at h
  split at h
  case h_2 => exact absurd h (by simp)
  split at h
  · exact absurd h (by simp)
  split at h
  case h_2 => exact absurd h (by simp)
  simp only [Option.some.injEq] at h
  subst h
  exact ⟨rfl, hbounds _⟩

/-- Witness for `quote_direction_bounds_invariant` on the concrete
snapshot: the emitted quote is the 0.42 bid. -/
theorem quote_direction_bounds_invariant_witness :
    QuoteEvent.type ⟨"Y", Role.yes, Direction.BID, 42/100⟩ = Direction.BID
    ∧ (∃ k : ℤ, QuoteEvent.price ⟨"Y", Role.yes, Direction.BID, 42/100⟩
        = (k : ℚ) / 100)
    ∧ 1/100 ≤ QuoteEvent.price ⟨"Y", Role.yes, Direction.BID, 42/100⟩
    ∧ QuoteEvent.price ⟨"Y", Role.yes, Direction.BID, 42/100⟩ ≤ 99/100 := by
  refine quote_direction_bounds_invariant makerW bookEventW _ ?_
  rw [quote_snapshot_spec_witness]
  norm_num [jsRound]

/-- C9: a BID fill of size q at price p on role r sets
`newQty = oldQty + q` and `newAvg = (oldQty·oldAvg + q·p)/newQty`
(0 when newQty is 0) on that role only; an ASK fill changes nothing. -/
theorem fill_inventory_spec (m : MarketMaker) (f : FillEvent) :
    (f.orderType = Direction.BID →
      (m.handleOrderFill f).inventory f.assetSide
        = ⟨(m.inventory f.assetSide).qty + f.size,
            if (m.inventory f.assetSide).qty + f.size = 0 then 0
            else ((m.inventory f.assetSide).qty * (m.inventory f.assetSide).avg
                + f.size * f.price)
              / ((m.inventory f.assetSide).qty + f.size)⟩
      ∧ (∀ r, r ≠ f.assetSide →
          (m.handleOrderFill f).inventory r = m.inventory r)
      ∧ (m.handleOrderFill f).yesTokenId = m.yesTokenId
      ∧ (m.handleOrderFill f).noTokenId = m.noTokenId)
    ∧ (f.orderType = Direction.ASK → m.handleOrderFill f = m) := by
  constructor
  · intro hbid
    unfold MarketMaker.handleOrderFill
    rw [if_pos hbid]
    refine ⟨?_, ?_, ?_, ?_⟩
    · cases hr : f.assetSide <;>
        simp [MarketMaker.setInventory, MarketMaker.inventory, hr]
    · intro r hne
      cases hr : f.assetSide <;> cases hr' : r <;>
        simp_all [MarketMaker.setInventory, MarketMaker.inventory]
    · cases hr : f.assetSide <;> simp [MarketMaker.setInventory, hr]
    · cases hr : f.assetSide <;> simp [MarketMaker.setInventory, hr]
  · intro hask
    unfold MarketMaker.handleOrderFill
    rw [if_neg (by rw [hask]; exact fun h => Direction.noConfusion h)]

/-- Concrete BID fill: 10 units of the YES token at 0.42. -/
def fillW : FillEvent := ⟨"Y", Role.yes, Direction.BID, 42/100, 10⟩

/-- Concrete ASK fill at the same price and size. -/
def fillAskW : FillEvent := ⟨"Y", Role.yes, Direction.ASK, 42/100, 10⟩

/-- Witness for `fill_inventory_spec`: the BID branch on `makerW` and the
ASK no-op branch. -/
theorem fill_inventory_spec_witness :
    (MarketMaker.handleOrderFill makerW fillW).inventory Role.yes
      = ⟨(makerW.inventory Role.yes).qty + 10,
          if (makerW.inventory Role.yes).qty + 10 = 0 then 0
          else ((makerW.inventory Role.yes).qty * (makerW.inventory Role.yes).avg
              + 10 * (42/100))
            / ((makerW.inventory Role.yes).qty + 10)⟩
    ∧ MarketMaker.handleOrderFill makerW fillAskW = makerW := by
  exact ⟨((fill_inventory_spec makerW fillW).1 rfl).1,
    (fill_inventory_spec makerW fillAskW).2 rfl⟩

/-! ## VirtualOrderManager (src/unnamed/part_001) -/

/-- A JS property bag stored in `activeOrders[side]`: either a placement
placeholder `{ timerId }` (all other fields `undefined`), a materialized
order (no `timerId`), or a materialized order with a refreshed `timerId`
(`{ ...existingOrder, timerId }`). -/
structure SlotEntry where
  timerId : Option ℕ := none
  assetId : Option String := none
  side : Option Role := none
  type : Option Direction := none
  price : Option ℚ := none
  size : Option ℚ := none
  createdAt : Option ℕ := none
  deriving DecidableEq

/-- A pending `setTimeout` callback: a scheduled placement or a scheduled
fill check. -/
inductive TimerPayload where
  | placement (assetId : String) (role : Role) (orderType : Direction)
      (price : ℚ)
  | fillCheck (role : Role) (order : SlotEntry)
  deriving DecidableEq

/-- State of `VirtualOrderManager` with the runtime's timer queue made
explicit: the two slots, a fresh-id counter and the pending timers. -/
structure VomState where
  yesSlot : Option SlotEntry
  noSlot : Option SlotEntry
  nextTimerId : ℕ
  pending : List (ℕ × TimerPayload)
  deriving DecidableEq

/-- `this.activeOrders[side]`. -/
def VomState.slot (st : VomState) : Role → Option SlotEntry
  | Role.yes => st.yesSlot
  | Role.no => st.noSlot

def VomState.setSlot (st : VomState) : Role → Option SlotEntry → VomState
  | Role.yes, v => { st with yesSlot := v }
  | Role.no, v => { st with noSlot := v }

/-- `clearTimeout(id)`: remove a timer from the queue; a no-op on
`undefined`. -/
def removeTimer (pending : List (ℕ × TimerPayload)) :
    Option ℕ → List (ℕ × TimerPayload)
  | none => pending
  | some id => pending.filter fun e => e.1 != id

/-- The callback registered under timer `id`, if it is still pending. -/
def lookupTimer : List (ℕ × TimerPayload) → ℕ → Option TimerPayload
  | [], _ => none
  | (i, pl) :: rest, id => if i = id then some pl else lookupTimer rest id

/-- `this.defaultOrderSize = 10`. -/
def defaultOrderSize : ℚ := 10

/-- The ignore condition of `handleNewQuotes`: an existing order on the
same side whose price is within 0.0001 of the new quote and whose type
matches (`undefined` price or type can never satisfy it). -/
def quoteIgnored (existingOrder : Option SlotEntry) (ty : Direction)
    (p : ℚ) : Bool :=
  match existingOrder with
  | some o =>
      match o.price, o.type with
      | some p0, some t0 => decide (|p0 - p| < 1/10000) && decide (t0 = ty)
      | _, _ => false
  | none => false

/-- `handleNewQuotes(assetId, assetSide, type, price)`: skip undefined
prices; skip when `quoteIgnored`; otherwise cancel the existing slot's
timer, schedule a fresh placement timer, and store either
`{ ...existingOrder, timerId }` or the bare placeholder `{ timerId }`. -/
def handleNewQuotes (st : VomState) (assetId : String) (assetSide : Role)
    (ty : Direction) (price : Option ℚ) : VomState :=
  match price with
  | none => st
  | some p =>
      let existingOrder := st.slot assetSide
      if quoteIgnored existingOrder ty p then st
      else
        let afterCancel :=
          match existingOrder with
          | some o => removeTimer st.pending o.timerId
          | none => st.pending
        let newId := st.nextTimerId
        let newSlot : SlotEntry :=
          match existingOrder with
          | some o => { o with timerId := some newId }
          | none => { timerId := some newId }
        { st.setSlot assetSide (some newSlot) with
          pending :=
            afterCancel ++ [(newId, TimerPayload.placement assetId assetSide ty p)],
          nextTimerId := newId + 1 }

/-- Payload of an `order:filled` emission (fields read off the captured
order object). -/
structure FillNotice where
  assetId : Option String
  assetSide : Role
  orderType : Option Direction
  price : Option ℚ
  size : Option ℚ
  deriving DecidableEq

/-- Fire the timer registered under `id` at time `now`: a cancelled id is
a no-op; a placement installs the materialized order into its slot; a
fill check re-validates the slot's order by creation timestamp before
emitting a fill and clearing the slot. -/
def fireTimer (st : VomState) (id : ℕ) (now : ℕ) :
    VomState × List FillNotice :=
  match lookupTimer st.pending id with
  | none => (st, [])
  | some (TimerPayload.placement assetId r ty p) =>
      let placed : SlotEntry :=
        { assetId := some assetId, side := some r, type := some ty,
          price := some p, size := some defaultOrderSize,
          createdAt := some now }
      ({ st.setSlot r (some placed) with
          pending := removeTimer st.pending (some id) }, [])
  | some (TimerPayload.fillCheck r order) =>
      let st1 : VomState := { st with pending := removeTimer st.pending (some id) }
      match st1.slot r with
      | some cur =>
          if cur.createdAt = order.createdAt then
            ({ st1.setSlot r none with pending := st1.pending },
              [⟨order.assetId, r, order.type, order.price, order.size⟩])
          else (st1, [])
      | none => (st1, [])

/-- The per-delta, per-role body of `simulateFills`: schedule a fill
callback when the slot holds a materialized BID order for the delta's
asset and the delta's best ask is at or below the order's price. -/
def trySchedFill (st : VomState) (c : PriceChange) (r : Role) : VomState :=
  match st.slot r with
  | none => st
  | some order =>
      match order.price with
      | none => st
      | some p =>
          if p = 0 then st
          else if order.assetId = some c.asset_id then
            match order.type with
            | some Direction.BID =>
                match c.best_ask with
                | some ba =>
                    if ba ≤ p then
                      { st with
                        pending := st.pending
                          ++ [(st.nextTimerId, TimerPayload.fillCheck r order)],
                        nextTimerId := st.nextTimerId + 1 }
                    else st
                | none => st
            | _ => st
          else st

/-- `simulateFills(changes)`: for each delta, check the yes then the no
slot. -/
def simulateFills (st : VomState) (changes : List PriceChange) : VomState :=
  changes.foldl
    (fun s c => trySchedFill (trySchedFill s c Role.yes) c Role.no) st

/-- `cancelAllOrders()`: clear the timer referenced by each slot and empty
both slots. -/
def cancelAllOrders (st : VomState) : VomState :=
  let p1 :=
    match st.yesSlot with
    | some o => removeTimer st.pending o.timerId
    | none => st.pending
  let p2 :=
    match st.noSlot with
    | some o => removeTimer p1 o.timerId
    | none => p1
  { st with yesSlot := none, noSlot := none, pending := p2 }

/-! ### VomState lemmas -/

theorem slot_pending (st : VomState) (x : List (ℕ × TimerPayload)) (r : Role) :
    (({ st with pending := x } : VomState)).slot r = st.slot r := by
  cases r <;> rfl

theorem slot_setSlot_same (st : VomState) (r : Role) (v : Option SlotEntry) :
    (st.setSlot r v).slot r = v := by
  cases r <;> rfl

theorem slot_setSlot_other (st : VomState) (r r' : Role) (v : Option SlotEntry)
    (h : r' ≠ r) : (st.setSlot r v).slot r' = st.slot r' := by
  cases r <;> cases r' <;> simp_all [VomState.setSlot, VomState.slot]

theorem slot_setSlot_pending (st : VomState) (r : Role) (v : Option SlotEntry)
    (x : List (ℕ × TimerPayload)) (r' : Role) :
    (({ st.setSlot r v with pending := x } : VomState)).slot r'
      = (st.setSlot r v).slot r' := by
  cases r <;> cases r' <;> rfl

/-- C3: a fill callback whose scheduled order has creation timestamp `t`
emits the fill and clears the slot exactly when the slot currently holds
an order created at `t`; on an empty slot or a different creation
timestamp it emits nothing and leaves every slot unchanged. -/
theorem fill_staleness_spec (st : VomState) (id now : ℕ) (r : Role)
    (order : SlotEntry) (t : ℕ)
    (hlook : lookupTimer st.pending id
      = some (TimerPayload.fillCheck r order))
    (hct : order.createdAt = some t) :
    (∀ cur, st.slot r = some cur → cur.createdAt = some t →
      (fireTimer st id now).2
          = [⟨order.assetId, r, order.type, order.price, order.size⟩]
        ∧ (fireTimer st id now).1.slot r = none
        ∧ ∀ r', r' ≠ r → (fireTimer st id now).1.slot r' = st.slot r')
    ∧ ((st.slot r = none
          ∨ ∃ cur, st.slot r = some cur ∧ cur.createdAt ≠ some t) →
      (fireTimer st id now).2 = []
        ∧ ∀ r', (fireTimer st id now).1.slot r' = st.slot r') := by
  have hslot1 : ∀ r'', (({ st with
      pending := removeTimer st.pending (some id) } : VomState)).slot r''
        = st.slot r'' := fun r'' => slot_pending st _ r''
  constructor
  · intro cur hslot hcur
    have hmatch : cur.createdAt = order.createdAt := by rw [hcur, hct]
    simp only [fireTimer, hlook]
    rw [hslot1 r, hslot]
    simp only [if_pos hmatch]
    refine ⟨by trivial, ?_, ?_⟩
    · rw [slot_setSlot_pending, slot_setSlot_same]
    · intro r' hr'
      rw [slot_setSlot_pending, slot_setSlot_other _ _ _ _ hr', hslot1]
  · intro hbad
    simp only [fireTimer, hlook]
    rcases hbad with hnone | ⟨cur, hsome, hne⟩
    · rw [hslot1 r, hnone]
      exact ⟨by trivial, fun r' => hslot1 r'⟩
    · rw [hslot1 r, hsome]
      have hmatch : ¬(cur.createdAt = order.createdAt) := by
        rw [hct]; exact hne
      simp only [if_neg hmatch]
      exact ⟨by trivial, fun r' => hslot1 r'⟩

/-- Concrete materialized YES order created at time 500. -/
def orderW3 : SlotEntry :=
  ⟨none, some "Y", some Role.yes, some Direction.BID, some (42/100),
    some 10, some 500⟩

/-- Concrete manager state with a fill callback pending against
`orderW3`. -/
def stW3 : VomState :=
  ⟨some orderW3, none, 8, [(7, TimerPayload.fillCheck Role.yes orderW3)]⟩

/-- Stale variant: the slot was superseded by an order created at 600. -/
def stW3stale : VomState :=
  ⟨some { orderW3 with createdAt := some 600 }, none, 8,
    [(7, TimerPayload.fillCheck Role.yes orderW3)]⟩

/-- Witness for `fill_staleness_spec`: the valid fire emits the fill and
clears the slot; the stale fire emits nothing and changes no slot. -/
theorem fill_staleness_spec_witness :
    ((fireTimer stW3 7 900).2
        = [⟨some "Y", Role.yes, some Direction.BID, some (42/100), some 10⟩]
      ∧ (fireTimer stW3 7 900).1.slot Role.yes = none)
    ∧ ((fireTimer stW3stale 7 900).2 = []
      ∧ (fireTimer stW3stale 7 900).1.slot Role.yes
          = stW3stale.slot Role.yes) := by
  have h1 := (fill_staleness_spec stW3 7 900 Role.yes orderW3 500 rfl rfl).1
    orderW3 rfl rfl
  have h2 := (fill_staleness_spec stW3stale 7 900 Role.yes orderW3 500 rfl
    rfl).2 (Or.inr ⟨{ orderW3 with createdAt := some 600 }, rfl, by decide⟩)
  exact ⟨⟨h1.1, h1.2.1⟩, ⟨h2.1, h2.2 Role.yes⟩⟩

theorem lookupTimer_append_fresh (l : List (ℕ × TimerPayload)) (id : ℕ)
    (pl : TimerPayload) (h : lookupTimer l id = none) :
    lookupTimer (l ++ [(id, pl)]) id = some pl := by
  induction l with
  | nil => simp [lookupTimer]
  | cons e rest ih =>
      obtain ⟨i, q⟩ := e
      by_cases hi : i = id
      · simp [lookupTimer, hi] at h
      · simp only [lookupTimer, if_neg hi] at h
        simp only [List.cons_append, lookupTimer, if_neg hi]
        exact ih h

theorem mem_removeTimer_ne (l : List (ℕ × TimerPayload)) (tid : ℕ)
    (e : ℕ × TimerPayload) (h : e ∈ removeTimer l (some tid)) : e.1 ≠ tid := by
  unfold removeTimer at h
  have := List.of_mem_filter h
  simpa using this

theorem mem_removeTimer_subset (l : List (ℕ × TimerPayload)) (x : Option ℕ)
    (e : ℕ × TimerPayload) (h : e ∈ removeTimer l x) : e ∈ l := by
  cases x with
  | none => exact h
  | some tid => exact List.mem_of_mem_filter h

theorem slot_setSlot_pending_next (st : VomState) (r : Role)
    (v : Option SlotEntry) (x : List (ℕ × TimerPayload)) (n : ℕ) (r' : Role) :
    (({ st.setSlot r v with pending := x, nextTimerId := n } : VomState)).slot
        r' = (st.setSlot r v).slot r' := by
  cases r <;> cases r' <;> rfl

/-- C7: a quote for a role whose slot holds a materialized order with the
same direction and a price within 0.0001 is a complete no-op; hence after
a first quote materializes, a second quote within 0.0001 at the same
direction leaves exactly that one materialized order in place. -/
theorem quote_idempotence_spec :
    (∀ (st : VomState) (a : String) (r : Role) (d : Direction) (p p0 : ℚ)
        (o : SlotEntry), st.slot r = some o → o.price = some p0 →
        o.type = some d → |p0 - p| < 1/10000 →
        handleNewQuotes st a r d (some p) = st)
    ∧ (∀ (st0 : VomState) (a : String) (r : Role) (d : Direction)
        (p1 p2 : ℚ) (now : ℕ), st0.slot r = none →
        lookupTimer st0.pending st0.nextTimerId = none →
        |p1 - p2| < 1/10000 →
        (fireTimer (handleNewQuotes st0 a r d (some p1)) st0.nextTimerId
            now).1.slot r
          = some ⟨none, some a, some r, some d, some p1,
              some defaultOrderSize, some now⟩
        ∧ handleNewQuotes
            (fireTimer (handleNewQuotes st0 a r d (some p1)) st0.nextTimerId
              now).1 a r d (some p2)
          = (fireTimer (handleNewQuotes st0 a r d (some p1)) st0.nextTimerId
              now).1) := by
  have partA : ∀ (st : VomState) (a : String) (r : Role) (d : Direction)
      (p p0 : ℚ) (o : SlotEntry), st.slot r = some o → o.price = some p0 →
      o.type = some d → |p0 - p| < 1/10000 →
      handleNewQuotes st a r d (some p) = st := by
    intro st a r d p p0 o hslot hp ht hclose
    have hig : quoteIgnored (st.slot r) d p = true := by
      rw [hslot]
      simp only [quoteIgnored, hp, ht]
      rw [decide_eq_true hclose]
      simp
    simp only [handleNewQuotes, hig, if_true]
  refine ⟨partA, ?_⟩
  intro st0 a r d p1 p2 now hempty hfresh hclose
  have hig1 : quoteIgnored (st0.slot r) d p1 = false := by
    rw [hempty]; rfl
  have hcond1 : ¬(quoteIgnored none d p1 = true) := by
    simp [quoteIgnored]
  have hst1 : handleNewQuotes st0 a r d (some p1)
      = { st0.setSlot r (some { timerId := some st0.nextTimerId }) with
          pending := st0.pending
            ++ [(st0.nextTimerId, TimerPayload.placement a r d p1)],
          nextTimerId := st0.nextTimerId + 1 } := by
    simp only [handleNewQuotes, hempty]
    rw [if_neg hcond1]
  have hlook1 : lookupTimer (handleNewQuotes st0 a r d (some p1)).pending
      st0.nextTimerId = some (TimerPayload.placement a r d p1) := by
    rw [hst1]
    exact lookupTimer_append_fresh st0.pending st0.nextTimerId _ hfresh
  have hst2 : (fireTimer (handleNewQuotes st0 a r d (some p1))
      st0.nextTimerId now).1
      = { (handleNewQuotes st0 a r d (some p1)).setSlot r
            (some ⟨none, some a, some r, some d, some p1,
              some defaultOrderSize, some now⟩) with
          pending := removeTimer
            (handleNewQuotes st0 a r d (some p1)).pending
            (some st0.nextTimerId) } := by
    simp only [fireTimer, hlook1]
  have hslot2 : (fireTimer (handleNewQuotes st0 a r d (some p1))
      st0.nextTimerId now).1.slot r
      = some ⟨none, some a, some r, some d, some p1, some defaultOrderSize,
          some now⟩ := by
    rw [hst2, slot_setSlot_pending, slot_setSlot_same]
  refine ⟨hslot2, ?_⟩
  exact partA _ a r d p2 p1 _ hslot2 rfl rfl hclose

/-- Empty concrete manager state. -/
def stW7 : VomState := ⟨none, none, 0, []⟩

/-- Witness for `quote_idempotence_spec`: two equal-price BID quotes on an
empty YES slot produce one materialized order and the second quote is a
no-op. -/
theorem quote_idempotence_spec_witness :
    (fireTimer (handleNewQuotes stW7 "Y" Role.yes Direction.BID
        (some (42/100))) 0 100).1.slot Role.yes
      = some ⟨none, some "Y", some Role.yes, some Direction.BID,
          some (42/100), some defaultOrderSize, some 100⟩
    ∧ handleNewQuotes
        (fireTimer (handleNewQuotes stW7 "Y" Role.yes Direction.BID
          (some (42/100))) 0 100).1 "Y" Role.yes Direction.BID
        (some (42/100))
      = (fireTimer (handleNewQuotes stW7 "Y" Role.yes Direction.BID
          (some (42/100))) 0 100).1 := by
  exact quote_idempotence_spec.2 stW7 "Y" Role.yes Direction.BID (42/100)
    (42/100) 100 rfl rfl (by norm_num)

/-- C10: a quote arriving while the slot holds only a placement
placeholder (no price field) is never suppressed — even at the same price
and direction it cancels the pending placement timer and schedules a new
placement, leaving a fresh placeholder in the slot. -/
theorem placeholder_quote_not_suppressed (st : VomState) (a : String)
    (r : Role) (d : Direction) (p : ℚ) (tid : ℕ)
    (hslot : st.slot r
      = some ⟨some tid, none, none, none, none, none, none⟩) :
    handleNewQuotes st a r d (some p)
      = { st.setSlot r (some ⟨some st.nextTimerId, none, none, none, none,
            none, none⟩) with
          pending := removeTimer st.pending (some tid)
            ++ [(st.nextTimerId, TimerPayload.placement a r d p)],
          nextTimerId := st.nextTimerId + 1 } := by
  have hcond : ¬(quoteIgnored
      (some ⟨some tid, none, none, none, none, none, none⟩) d p = true) := by
    simp [quoteIgnored]
  simp only [handleNewQuotes, hslot]
  rw [if_neg hcond]

/-- Concrete state: YES slot holds a bare placeholder for pending
placement timer 3, which is still in the queue. -/
def stW10 : VomState :=
  ⟨some ⟨some 3, none, none, none, none, none, none⟩, none, 5,
    [(3, TimerPayload.placement "Y" Role.yes Direction.BID (42/100))]⟩

/-- Witness for `placeholder_quote_not_suppressed`: a quote at exactly the
pending placement's price and direction still cancels timer 3 and
schedules timer 5. -/
theorem placeholder_quote_not_suppressed_witness :
    handleNewQuotes stW10 "Y" Role.yes Direction.BID (some (42/100))
      = { stW10.setSlot Role.yes (some ⟨some stW10.nextTimerId, none, none,
            none, none, none, none⟩) with
          pending := removeTimer stW10.pending (some 3)
            ++ [(stW10.nextTimerId,
                TimerPayload.placement "Y" Role.yes Direction.BID (42/100))],
          nextTimerId := stW10.nextTimerId + 1 } :=
  placeholder_quote_not_suppressed stW10 "Y" Role.yes Direction.BID
    (42/100) 3 rfl

/-- C8 counterexample state: the YES slot holds a materialized resting
order (price 0.50, created at 111) and no timer is pending. -/
def stC8 : VomState :=
  ⟨some ⟨none, some "Y", some Role.yes, some Direction.BID, some (1/2),
    some 10, some 111⟩, none, 0, []⟩

/-- C8 is false as stated: superseding a materialized resting order does
NOT leave a bare placeholder — the slot keeps every field of the old
order (price, size, creation timestamp) with only the timer id
refreshed. -/
theorem pending_slot_keeps_fields :
    (handleNewQuotes stC8 "Y" Role.yes Direction.BID
        (some (3/5))).slot Role.yes
      = some ⟨some 0, some "Y", some Role.yes, some Direction.BID,
          some (1/2), some 10, some 111⟩ := by
  have hcond : ¬(quoteIgnored (stC8.slot Role.yes) Direction.BID (3/5)
      = true) := by
    simp only [stC8, VomState.slot, quoteIgnored]
    rw [decide_eq_false (by
      rw [show (1:ℚ)/2 - 3/5 = -(1/10) by norm_num, abs_neg,
        abs_of_pos (by norm_num : (0:ℚ) < 1/10)]
      norm_num : ¬(|(1:ℚ)/2 - 3/5| < 1/10000))]
    simp
  simp only [handleNewQuotes]
  rw [if_neg hcond]
  rfl

/-- C8 amended: between scheduling and firing, the slot holds the bare
placeholder `{ timerId }` only when the previous slot was empty; when the
slot held an entry (placeholder or materialized order), every existing
field is kept and only the timer id is replaced. -/
theorem pending_slot_spec (st : VomState) (a : String) (r : Role)
    (d : Direction) (p : ℚ)
    (hnotig : quoteIgnored (st.slot r) d p = false) :
    (st.slot r = none →
      (handleNewQuotes st a r d (some p)).slot r
        = some ⟨some st.nextTimerId, none, none, none, none, none, none⟩)
    ∧ (∀ o, st.slot r = some o →
      (handleNewQuotes st a r d (some p)).slot r
        = some { o with timerId := some st.nextTimerId }) := by
  constructor
  · intro hempty
    rw [hempty] at hnotig
    have hcond : ¬(quoteIgnored none d p = true) := by
      rw [hnotig]; simp
    simp only [handleNewQuotes, hempty]
    rw [if_neg hcond, slot_setSlot_pending_next, slot_setSlot_same]
  · intro o hsome
    rw [hsome] at hnotig
    have hcond : ¬(quoteIgnored (some o) d p = true) := by
      rw [hnotig]; simp
    simp only [handleNewQuotes, hsome]
    rw [if_neg hcond, slot_setSlot_pending_next, slot_setSlot_same]

/-- Witness for `pending_slot_spec`: superseding the materialized order of
`stC8` keeps its fields with the refreshed timer id; a quote on the empty
NO slot leaves a bare placeholder. -/
theorem pending_slot_spec_witness :
    ((handleNewQuotes stC8 "Y" Role.yes Direction.ASK
        (some (1/2))).slot Role.yes
      = some { (⟨none, some "Y", some Role.yes, some Direction.BID,
          some (1/2), some 10, some 111⟩ : SlotEntry) with
          timerId := some stC8.nextTimerId })
    ∧ ((handleNewQuotes stC8 "N" Role.no Direction.BID
        (some (1/2))).slot Role.no
      = some ⟨some stC8.nextTimerId, none, none, none, none, none, none⟩) := by
  have h1 := (pending_slot_spec stC8 "Y" Role.yes Direction.ASK (1/2)
    (by simp [stC8, VomState.slot, quoteIgnored])).2
    ⟨none, some "Y", some Role.yes, some Direction.BID, some (1/2),
      some 10, some 111⟩ rfl
  have h2 := (pending_slot_spec stC8 "N" Role.no Direction.BID (1/2)
    (by simp [stC8, VomState.slot, quoteIgnored])).1 rfl
  exact ⟨h1, h2⟩

/-- Materialized YES order (created at 7) used in the expiry scenario. -/
def oC6 : SlotEntry :=
  ⟨none, some "Y", some Role.yes, some Direction.BID, some (1/2), some 10,
    some 7⟩

/-- State at expiry: a fill callback (timer 5) is outstanding against
`oC6`, which rests in the YES slot with no placement timer. -/
def stC6 : VomState :=
  ⟨some oC6, none, 9, [(5, TimerPayload.fillCheck Role.yes oC6)]⟩

/-- C6 is false as stated: `cancelAllOrders` does NOT cancel outstanding
fill timers — fill-timer handles are never stored, so after expiry the
fill callback of timer 5 is still pending. -/
theorem expiry_fill_timer_not_cancelled :
    (cancelAllOrders stC6).pending
        = [(5, TimerPayload.fillCheck Role.yes oC6)]
      ∧ lookupTimer (cancelAllOrders stC6).pending 5
        = some (TimerPayload.fillCheck Role.yes oC6) := ⟨rfl, rfl⟩

/-- C6 amended: on expiry both slots are cleared unconditionally and every
timer referenced by a slot (i.e. every outstanding placement timer) is
cancelled; fill timers survive, but firing one after expiry emits nothing
and leaves both slots empty, and firing a cancelled timer is a no-op — so
no order is materialized and no fill is emitted by a pre-expiry callback
while the slots remain empty. -/
theorem expiry_cancel_spec (st : VomState) :
    (cancelAllOrders st).yesSlot = none
    ∧ (cancelAllOrders st).noSlot = none
    ∧ (∀ o tid, (st.yesSlot = some o ∨ st.noSlot = some o) →
        o.timerId = some tid →
        ∀ e ∈ (cancelAllOrders st).pending, e.1 ≠ tid)
    ∧ (∀ id now r order,
        lookupTimer (cancelAllOrders st).pending id
          = some (TimerPayload.fillCheck r order) →
        (fireTimer (cancelAllOrders st) id now).2 = []
          ∧ (fireTimer (cancelAllOrders st) id now).1.yesSlot = none
          ∧ (fireTimer (cancelAllOrders st) id now).1.noSlot = none)
    ∧ (∀ id now, lookupTimer (cancelAllOrders st).pending id = none →
        fireTimer (cancelAllOrders st) id now = (cancelAllOrders st, [])) := by
  refine ⟨rfl, rfl, ?_, ?_, ?_⟩
  · intro o tid hslot htid e he
    rcases hslot with hy | hn
    · cases hno : st.noSlot with
      | none =>
          simp only [cancelAllOrders, hy, hno, htid] at he
          exact mem_removeTimer_ne _ _ _ he
      | some o2 =>
          simp only [cancelAllOrders, hy, hno, htid] at he
          exact mem_removeTimer_ne _ _ _ (mem_removeTimer_subset _ _ _ he)
    · simp only [cancelAllOrders, hn, htid] at he
      exact mem_removeTimer_ne _ _ _ he
  · intro id now r order hlk
    simp only [fireTimer, hlk]
    have hnone : (({ cancelAllOrders st with
        pending := removeTimer (cancelAllOrders st).pending (some id) }
          : VomState)).slot r = none := by
      cases r <;> rfl
    rw [hnone]
    exact ⟨rfl, rfl, rfl⟩
  · intro id now hnone
    simp only [fireTimer, hnone]

/-- Witness for `expiry_cancel_spec`: after expiring `stC6`, firing the
surviving fill timer 5 emits nothing and both slots stay empty. -/
theorem expiry_cancel_spec_witness :
    (cancelAllOrders stC6).yesSlot = none
    ∧ (fireTimer (cancelAllOrders stC6) 5 950).2 = []
    ∧ (fireTimer (cancelAllOrders stC6) 5 950).1.yesSlot = none
    ∧ (fireTimer (cancelAllOrders stC6) 5 950).1.noSlot = none := by
  have h := expiry_cancel_spec stC6
  have h4 := h.2.2.2.1 5 950 Role.yes oC6 rfl
  exact ⟨h.1, h4.1, h4.2.1, h4.2.2⟩
